import Mathlib

/-!
Verification of the `ember-validations` validation engine
(`src/packages/ember-validations/lib/validations.js` and the focus-tracking
widget extension in `src/unnamed/part_000`) against its specification.

The JavaScript code is shallowly embedded: the mixin's per-object state is a
`VObject` record, the error collection is an association list from attribute
names to ordered message lists, validators are functions from the current
attribute value to the list of messages they add for that attribute, and
Ember's `propertyWillChange` / `propertyDidChange` notifications together with
the collection mutations are recorded in an explicit event trace.
-/

set_option autoImplicit false

namespace EmberValidations

/- ### JavaScript string helpers

`String.prototype.replace(pat, rep)` with a plain-string pattern replaces only
the FIRST occurrence of `pat`.  `matchesAt pat s` tests whether `pat` is an
initial segment of `s`. -/

/-- `pat` is an initial segment of `s`. -/
def matchesAt : List Char → List Char → Bool
  | [], _ => true
  | _ :: _, [] => false
  | p :: ps, c :: cs => p == c && matchesAt ps cs

/-- JS `s.replace(pat, rep)` for string patterns: replace the first
occurrence of `pat` in `s` by `rep`; `s` unchanged when `pat` does not occur. -/
def replaceFirstList (pat rep : List Char) : List Char → List Char
  | [] => []
  | c :: rest =>
    if matchesAt pat (c :: rest) then rep ++ (c :: rest).drop pat.length
    else c :: replaceFirstList pat rep rest

/-- Whether `pat` occurs (as a contiguous run) anywhere in the list. -/
def hasOccurrence (pat : List Char) : List Char → Bool
  | [] => matchesAt pat []
  | c :: rest => matchesAt pat (c :: rest) || hasOccurrence pat rest

/-- JS `String.prototype.replace` with a plain-string pattern. -/
def replaceFirst (s pat rep : String) : String :=
  String.mk (replaceFirstList pat.data rep.data s.data)

theorem strDataAppend (s t : String) : (s ++ t).data = s.data ++ t.data := by
  cases s; cases t; rfl

/- ### Error collection

`Ember.ValidationErrors` (`lib/validation_errors.js`) is part of the
repository but is not among the provided sources; it is modelled from the
spec, section 4.1. -/

/-- Modelled from the spec: the Error Collection is an ordered,
attribute-keyed container of validation failure messages
(`lib/validation_errors.js` is not among the provided sources). -/
abbrev Errors := List (String × List String)

/-- Modelled from the spec: `add(attribute, message)` appends `message` to the
ordered sequence for `attribute`, creating the sequence if absent. -/
def errorsAdd : Errors → String → String → Errors
  | [], a, m => [(a, [m])]
  | (k, ms) :: rest, a, m =>
    if k = a then (k, ms ++ [m]) :: rest else (k, ms) :: errorsAdd rest a m

/-- Modelled from the spec: `remove(attribute)` clears only `attribute`'s
sequence. -/
def errorsRemove : Errors → String → Errors
  | [], _ => []
  | (k, ms) :: rest, a =>
    if k = a then errorsRemove rest a else (k, ms) :: errorsRemove rest a

/-- Modelled from the spec: the message sequence currently recorded for an
attribute (empty when the attribute has no entry). -/
def msgsFor : Errors → String → List String
  | [], _ => []
  | (k, ms) :: rest, a => if k = a then ms else msgsFor rest a

/-- Modelled from the spec: `length` is the total count of messages across
all attributes. -/
def errorsLength (e : Errors) : Nat :=
  (e.map (fun kv => kv.2.length)).sum

@[simp] theorem msgsFor_nil (a : String) : msgsFor [] a = [] := rfl

theorem msgsFor_errorsAdd_ne (e : Errors) (a b m : String) (h : b ≠ a) :
    msgsFor (errorsAdd e a m) b = msgsFor e b := by
  induction e with
  | nil => simp [errorsAdd, msgsFor, Ne.symm h]
  | cons kv rest ih =>
    obtain ⟨k, ms⟩ := kv
    by_cases hk : k = a
    · subst hk
      simp [errorsAdd, msgsFor, Ne.symm h]
    · simp [errorsAdd, msgsFor, hk]
      by_cases hb : k = b <;> simp [hb, ih]

theorem msgsFor_errorsRemove_ne (e : Errors) (a b : String) (h : b ≠ a) :
    msgsFor (errorsRemove e a) b = msgsFor e b := by
  induction e with
  | nil => rfl
  | cons kv rest ih =>
    obtain ⟨k, ms⟩ := kv
    by_cases hk : k = a
    · subst hk
      simp [errorsRemove, msgsFor, Ne.symm h, ih]
    · simp [errorsRemove, msgsFor, hk]
      by_cases hb : k = b <;> simp [hb, ih]

theorem msgsFor_errorsRemove_self (e : Errors) (a : String) :
    msgsFor (errorsRemove e a) a = [] := by
  induction e with
  | nil => rfl
  | cons kv rest ih =>
    obtain ⟨k, ms⟩ := kv
    by_cases hk : k = a <;> simp [errorsRemove, msgsFor, hk, ih]

/- ### Validators

`Ember.Validators` (`lib/validators/...` and `getValidator`) is part of the
repository but is not among the provided sources. -/

/-- Modelled from the spec: a validator resolved by
`Ember.Validators.getValidator(validationName, options)` exposes
`validate(object, attribute, currentValue)`, which inspects `currentValue` and
calls `add` on the object's Error Collection zero or more times for that
attribute; here a validator is the function from the current value to the
ordered list of messages it adds for the attribute. -/
abbrev Validator := String → List String

/-- The `validations` property: a mapping from attribute name to a mapping
from rule name to the validator resolved for that rule's options. -/
abbrev ValidationsSpec := List (String × List (String × Validator))

/-- `validations[attribute]` (declaration order preserved; `[]` when the
attribute has no entry, mirroring `for (… in undefined)` iterating nothing). -/
def lookupRules (vs : ValidationsSpec) (a : String) : List (String × Validator) :=
  match vs.find? (fun kv => kv.1 == a) with
  | some kv => kv.2
  | none => []

/- ### Events

Observable actions of one engine call: the `propertyWillChange` /
`propertyDidChange('validationErrors')` notifications and the mutations of the
error collection, in order. -/

inductive VEvent where
  /-- `this.propertyWillChange('validationErrors')` -/
  | willChange (key : String)
  /-- `this.propertyDidChange('validationErrors')` -/
  | didChange (key : String)
  /-- `errors.clear()` -/
  | errorsCleared
  /-- `errors.remove(attribute)` -/
  | errorsRemoved (attr : String)
  /-- `errors.add(attribute, message)` (performed by a validator) -/
  | errorsAdded (attr : String) (msg : String)
  deriving DecidableEq, Repr

/-- Change notifications on the `validationErrors` property, as seen by
external observers of the validated object. -/
def isNotifyEvent : VEvent → Bool
  | VEvent.willChange _ => true
  | VEvent.didChange _ => true
  | _ => false

/- ### The validated object (the mixin's per-object state) -/

/-- An object carrying the `Ember.Validations` mixin.  Attribute values live
in the host object's reactive property system (`values`); boolean properties
such as `<attribute>shouldValidate` live in `flags`; `observerFlags` holds the
keys `this[observerKey]` set to the (truthy) handles returned by
`Ember.addObserver`, and `observers` the registered observers as
(observed key, handler name) pairs in registration order. -/
structure VObject where
  values : String → String
  validations : ValidationsSpec
  validationErrors : Errors
  didValidateAllOnce : Bool
  flags : String → Bool
  validateOnValueChange : Bool
  validateOnFocusOut : Bool
  observerFlags : List String
  observers : List (String × String)

/-- Result of one engine call: the updated object, the returned boolean and
the emitted event trace. -/
structure RunResult where
  obj : VObject
  ok : Bool
  trace : List VEvent

/- ### The engine operations (`lib/validations.js`) -/

/-- `isValid` (lines 191–193): `get(this, 'validationErrors.length') === 0`. -/
def isValid (o : VObject) : Bool :=
  errorsLength o.validationErrors == 0

/-- One iteration of the rule loop of `_validateProperty` (lines 175–180):
`validator.validate(this, attribute, this.get(attribute))` — the resolved
validator inspects the current value and adds its messages for the attribute
to the live collection. -/
def rrStep (values : String → String) (attr : String)
    (acc : Errors × List VEvent) (rule : String × Validator) :
    Errors × List VEvent :=
  let msgs := rule.2 (values attr)
  (msgs.foldl (fun e2 m => errorsAdd e2 attr m) acc.1,
   acc.2 ++ msgs.map (fun m => VEvent.errorsAdded attr m))

/-- The rule loop of `_validateProperty` (lines 175–181): run every rule
configured for the attribute against the live collection; returns the
resulting collection and the emitted mutation events. -/
def runRules (values : String → String) (attr : String)
    (rules : List (String × Validator)) (e : Errors) : Errors × List VEvent :=
  rules.foldl (rrStep values attr) (e, [])

/-- `_validateProperty` (lines 168–185): `errors.remove(attribute)`, run every
rule configured for `attribute`, return
`!get(this, 'validationErrors.' + attribute + '.length')`. -/
def _validateProperty (o : VObject) (attr : String) : RunResult :=
  let errors0 := errorsRemove o.validationErrors attr
  let attributeValidations := lookupRules o.validations attr
  let res := runRules o.values attr attributeValidations errors0
  { obj := { o with validationErrors := res.1 },
    ok := (msgsFor res.1 attr).length == 0,
    trace := VEvent.errorsRemoved attr :: res.2 }

/-- `validateProperty` (lines 160–165): bracket `_validateProperty` in a
single `propertyWillChange` / `propertyDidChange('validationErrors')` pair. -/
def validateProperty (o : VObject) (attr : String) : RunResult :=
  let r := _validateProperty o attr
  { r with
    trace := VEvent.willChange "validationErrors" ::
      r.trace ++ [VEvent.didChange "validationErrors"] }

/-- One iteration of `validate`'s attribute loop (lines 145–148). -/
def vstep (acc : VObject × List VEvent) (attr : String) :
    VObject × List VEvent :=
  let r := _validateProperty acc.1 attr
  (r.obj, acc.2 ++ r.trace)

/-- `validate` (lines 135–152): set `_didValidateAllOnce`, emit one
`propertyWillChange`, `errors.clear()`, run `_validateProperty` for every
attribute key of `validations`, emit one `propertyDidChange`, and return
`get(this, 'isValid')`. -/
def validate (o : VObject) : RunResult :=
  let o1 := { o with didValidateAllOnce := true }
  let o2 := { o1 with validationErrors := [] }
  let res := (o2.validations.map Prod.fst).foldl vstep (o2, [])
  { obj := res.1,
    ok := isValid res.1,
    trace := VEvent.willChange "validationErrors" :: VEvent.errorsCleared ::
      res.2 ++ [VEvent.didChange "validationErrors"] }

/-- `_onValueChangeValidateAttribute` (lines 113–119): on a value change of
`property`, re-validate it iff `this.get(property + 'shouldValidate')` or
`this._didValidateAllOnce`.  The middle component records which attribute was
re-validated (`none` when no validation fired). -/
def _onValueChangeValidateAttribute (o : VObject) (property : String) :
    VObject × Option String × List VEvent :=
  let shouldValidatePath := property ++ "shouldValidate"
  if o.flags shouldValidatePath || o.didValidateAllOnce then
    let r := validateProperty o property
    (r.obj, some property, r.trace)
  else (o, none, [])

/-- Line 122: `shouldValidatePath.replace('shouldValidate', '')` — JS
`replace` removes the FIRST occurrence of `'shouldValidate'`. -/
def recoverProperty (shouldValidatePath : String) : String :=
  replaceFirst shouldValidatePath "shouldValidate" ""

/-- `_onFocusOutValidateAttribute` (lines 121–127): recover the attribute name
from the observed key and re-validate it under the same gate. -/
def _onFocusOutValidateAttribute (o : VObject) (shouldValidatePath : String) :
    VObject × Option String × List VEvent :=
  let property := recoverProperty shouldValidatePath
  if o.flags shouldValidatePath || o.didValidateAllOnce then
    let r := validateProperty o property
    (r.obj, some property, r.trace)
  else (o, none, [])

/- ### Auto-validation wiring (`_setupAutoValidateObserves`, lines 88–110) -/

/-- Line 96: `'_observer' + property + '_value_change'`. -/
def vcObserverKey (p : String) : String := "_observer" ++ p ++ "_value_change"

/-- Line 104: `'_observer' + property + '_focus_out'`. -/
def foObserverKey (p : String) : String := "_observer" ++ p ++ "_focus_out"

/-- Line 103: `var key = property + 'shouldValidate'` — the key the engine's
focus-out observer watches for an attribute. -/
def focusOutObservedKey (p : String) : String := p ++ "shouldValidate"

/-- Handler name registered for value-change observers (line 98). -/
def vcHandler : String := "_onValueChangeValidateAttribute"

/-- Handler name registered for focus-out observers (line 106). -/
def foHandler : String := "_onFocusOutValidateAttribute"

/-- The wiring state: the stored truthy `this[observerKey]` handles, and the
observers registered with `Ember.addObserver` as
(observed key, handler name) pairs in registration order. -/
abbrev WiringState := List String × List (String × String)

/-- Lines 95–100: install the value-change observer for `property` unless
`this[observerKey]` is already set. -/
def wireValueStep (validateOnValueChange : Bool) (p : String)
    (st : WiringState) : WiringState :=
  if validateOnValueChange then
    if vcObserverKey p ∈ st.1 then st
    else (vcObserverKey p :: st.1, st.2 ++ [(p, vcHandler)])
  else st

/-- Lines 102–108: install the focus-out observer on
`property + 'shouldValidate'` unless `this[observerKey]` is already set. -/
def wireFocusStep (validateOnFocusOut : Bool) (p : String)
    (st : WiringState) : WiringState :=
  if validateOnFocusOut then
    if foObserverKey p ∈ st.1 then st
    else (foObserverKey p :: st.1, st.2 ++ [(focusOutObservedKey p, foHandler)])
  else st

/-- The body of the `for (property in validations)` loop (lines 94–109). -/
def wireOne (validateOnValueChange validateOnFocusOut : Bool)
    (st : WiringState) (p : String) : WiringState :=
  wireFocusStep validateOnFocusOut p (wireValueStep validateOnValueChange p st)

/-- `_setupAutoValidateObserves` (lines 88–110), run at `init` and whenever
`validations` changes. -/
def _setupAutoValidateObserves (o : VObject) : VObject :=
  let st := (o.validations.map Prod.fst).foldl
    (wireOne o.validateOnValueChange o.validateOnFocusOut)
    (o.observerFlags, o.observers)
  { o with observerFlags := st.1, observers := st.2 }

/-- Reassigning `validations` re-triggers the wiring step
(`.observes('validations')`, line 110). -/
def reassignAndWire (o : VObject) (v : ValidationsSpec) : VObject :=
  _setupAutoValidateObserves { o with validations := v }

/-- A sequence of `validations` assignments, each followed by the wiring
step. -/
def applySeq (o : VObject) (vs : List ValidationsSpec) : VObject :=
  vs.foldl reassignAndWire o

/- ### The focus-tracking widget extension (`src/unnamed/part_000`) -/

/-- The widget's data-binding (`valueBinding` / `checkedBinding`): its `_from`
source path, split into the leading segments (which Ember's path resolution
maps to the underlying object) and the final segment (the bound attribute
name).  `property + 'shouldValidate'` appends to the final segment. -/
structure WidgetBinding where
  base : List String
  attr : String

/-- A focus-capable input widget (`Ember.TextField`, `Ember.TextArea`,
`Ember.Select`, `Ember.Checkbox`) with the reopened focus behaviour. -/
structure Widget where
  didFocusIn : Bool
  didFocusOut : Bool
  valueBinding : Option WidgetBinding
  checkedBinding : Option WidgetBinding
  ownFlags : String → Bool

/-- The widgets' surroundings: Ember's resolution of a binding source path's
leading segments to an underlying object (by id), and each object's boolean
properties. -/
structure UIWorld where
  resolve : List String → Option Nat
  objFlags : Nat → String → Bool

/-- `set` of a boolean property on the object a path resolved to. -/
def setObjFlag (w : UIWorld) (oid : Nat) (k : String) : UIWorld :=
  { w with
    objFlags := fun o k2 =>
      if o = oid ∧ k2 = k then true else w.objFlags o k2 }

/-- `_setupShouldValidate` (part_000 lines 14–25): observes `_didFocusIn` and
`_didFocusOut`; once both are set, resolves
`(this.valueBinding || this.checkedBinding)._from` and sets
`property + 'shouldValidate'` to true on the resolved object.  When no
binding exists, `property` is `undefined` and the widget sets the key
`"undefinedshouldValidate"` on itself; when the path does not resolve, the
`set` has no observable target. -/
def _setupShouldValidate (wg : Widget) (world : UIWorld) : Widget × UIWorld :=
  if !wg.didFocusIn || !wg.didFocusOut then (wg, world)
  else
    match wg.valueBinding, wg.checkedBinding with
    | some b, _ =>
      (match world.resolve b.base with
       | some oid => (wg, setObjFlag world oid (b.attr ++ "shouldValidate"))
       | none => (wg, world))
    | none, some b =>
      (match world.resolve b.base with
       | some oid => (wg, setObjFlag world oid (b.attr ++ "shouldValidate"))
       | none => (wg, world))
    | none, none =>
      ({ wg with
          ownFlags := fun k =>
            if k = "undefinedshouldValidate" then true else wg.ownFlags k },
       world)

/- ### Basic facts about the engine operations -/

theorem isValid_iff (x : VObject) :
    isValid x = true ↔ errorsLength x.validationErrors = 0 := by
  simp [isValid]

theorem vstep_trace_mono {x : VEvent} {acc : VObject × List VEvent}
    (q : String) (h : x ∈ acc.2) : x ∈ (vstep acc q).2 := by
  simp only [vstep]
  exact List.mem_append_left _ h

theorem vfold_trace_mono {x : VEvent} :
    ∀ (l : List String) (acc : VObject × List VEvent),
      x ∈ acc.2 → x ∈ (l.foldl vstep acc).2 := by
  intro l
  induction l with
  | nil => intro acc h; exact h
  | cons q rest ih => intro acc h; exact ih (vstep acc q) (vstep_trace_mono q h)

theorem removed_mem_vfold (a : String) :
    ∀ (l : List String) (acc : VObject × List VEvent),
      a ∈ l → VEvent.errorsRemoved a ∈ (l.foldl vstep acc).2 := by
  intro l
  induction l with
  | nil => intro acc h; cases h
  | cons q rest ih =>
    intro acc h
    rcases List.mem_cons.mp h with h | h
    · subst h
      refine vfold_trace_mono rest (vstep acc a) ?_
      simp [vstep, _validateProperty]
    · exact ih (vstep acc q) h

theorem rrfold_events_nonnotify (vals : String → String) (a : String) :
    ∀ (rules : List (String × Validator)) (acc : Errors × List VEvent),
      (∀ x ∈ acc.2, isNotifyEvent x = false) →
      ∀ x ∈ (rules.foldl (rrStep vals a) acc).2, isNotifyEvent x = false := by
  intro rules
  induction rules with
  | nil => intro acc h; exact h
  | cons rule rest ih =>
    intro acc h
    refine ih (rrStep vals a acc rule) ?_
    intro x hx
    simp only [rrStep, List.mem_append] at hx
    rcases hx with hx | hx
    · exact h x hx
    · rcases List.mem_map.mp hx with ⟨m, _, rfl⟩
      rfl

theorem vp_trace_nonnotify (o : VObject) (a : String) :
    ∀ x ∈ (_validateProperty o a).trace, isNotifyEvent x = false := by
  intro x hx
  simp only [_validateProperty, List.mem_cons] at hx
  rcases hx with rfl | hx
  · rfl
  · exact rrfold_events_nonnotify o.values a (lookupRules o.validations a) _
      (by intro y hy; cases hy) x hx

theorem vfold_events_nonnotify :
    ∀ (l : List String) (acc : VObject × List VEvent),
      (∀ x ∈ acc.2, isNotifyEvent x = false) →
      ∀ x ∈ (l.foldl vstep acc).2, isNotifyEvent x = false := by
  intro l
  induction l with
  | nil => intro acc h; exact h
  | cons q rest ih =>
    intro acc h
    refine ih (vstep acc q) ?_
    intro x hx
    simp only [vstep, List.mem_append] at hx
    rcases hx with hx | hx
    · exact h x hx
    · exact vp_trace_nonnotify acc.1 q x hx

theorem vfold_only_errors :
    ∀ (l : List String) (acc : VObject × List VEvent),
      (l.foldl vstep acc).1 =
        { acc.1 with validationErrors := (l.foldl vstep acc).1.validationErrors } := by
  intro l
  induction l with
  | nil => intro acc; rfl
  | cons q rest ih => intro acc; exact ih (vstep acc q)

theorem validate_obj_shape (o : VObject) :
    ∃ e, (validate o).obj =
      { o with validationErrors := e, didValidateAllOnce := true } :=
  ⟨_, vfold_only_errors (o.validations.map Prod.fst)
    ({ o with didValidateAllOnce := true, validationErrors := [] }, [])⟩

/-- C1.  `validate()` re-validates (removes and re-runs) every attribute key
present in `validations` and returns exactly the derived `isValid` value:
true iff the Error Collection's total message count is zero. -/
theorem validate_returns_isValid (o : VObject) :
    ((validate o).ok = true ↔ errorsLength (validate o).obj.validationErrors = 0)
    ∧ ∀ a ∈ o.validations.map Prod.fst,
        VEvent.errorsRemoved a ∈ (validate o).trace := by
  constructor
  · have h : (validate o).ok = isValid ((validate o).obj) := rfl
    rw [h]
    exact isValid_iff _
  · intro a ha
    have h2 := removed_mem_vfold a (o.validations.map Prod.fst)
      ({ o with didValidateAllOnce := true, validationErrors := [] }, []) ha
    have h3 : (validate o).trace =
        VEvent.willChange "validationErrors" :: VEvent.errorsCleared ::
          ((o.validations.map Prod.fst).foldl vstep
            ({ o with didValidateAllOnce := true, validationErrors := [] }, [])).2
          ++ [VEvent.didChange "validationErrors"] := rfl
    rw [h3]
    exact List.mem_cons_of_mem _ (List.mem_cons_of_mem _ (List.mem_append_left _ h2))

/-- C1 witness. -/
theorem validate_returns_isValid_witness :
    let o : VObject :=
      { values := fun _ => ""
      , validations := [("name", [("presence", fun v => if v = "" then ["required"] else [])])]
      , validationErrors := []
      , didValidateAllOnce := false
      , flags := fun _ => false
      , validateOnValueChange := false
      , validateOnFocusOut := false
      , observerFlags := []
      , observers := [] }
    ("name" ∈ o.validations.map Prod.fst)
    ∧ ((validate o).ok = true ↔ errorsLength (validate o).obj.validationErrors = 0)
    ∧ VEvent.errorsRemoved "name" ∈ (validate o).trace := by
  intro o
  refine ⟨by decide, (validate_returns_isValid o).1,
    (validate_returns_isValid o).2 "name" (by decide)⟩

/-- C2.  `validateProperty(a)` returns true iff, after removing `a`'s prior
errors and re-running every rule configured for `a`, the Error Collection
holds no message for `a`. -/
theorem validateProperty_true_iff_error_free (o : VObject) (a : String) :
    (validateProperty o a).ok = true ↔
      msgsFor (validateProperty o a).obj.validationErrors a = [] := by
  have h : (validateProperty o a).ok =
      ((msgsFor ((validateProperty o a).obj.validationErrors) a).length == 0) := rfl
  rw [h]
  simp [List.length_eq_zero]

/-- C7.  Two successive `validate()` calls with nothing changed in between
leave the Error Collection identical and return the same boolean. -/
theorem validate_idempotent (o : VObject) :
    (validate (validate o).obj).obj.validationErrors =
      (validate o).obj.validationErrors
    ∧ (validate (validate o).obj).ok = (validate o).ok := by
  obtain ⟨e, he⟩ := validate_obj_shape o
  constructor
  · rw [he]
    exact congrArg VObject.validationErrors he
  · rw [he]
    rfl

/-- C8.  A full `validate()` pass emits exactly one
`propertyWillChange('validationErrors')` (first) and one
`propertyDidChange('validationErrors')` (last); the clear of the collection
and the repopulation of every attribute's errors all happen strictly between
them, with no further change notification inside the pass. -/
theorem validate_single_notification_bracket (o : VObject) :
    ∃ inner, (validate o).trace =
        VEvent.willChange "validationErrors" ::
          (inner ++ [VEvent.didChange "validationErrors"])
      ∧ VEvent.errorsCleared ∈ inner
      ∧ ∀ x ∈ inner, isNotifyEvent x = false := by
  refine ⟨VEvent.errorsCleared ::
    ((o.validations.map Prod.fst).foldl vstep
      ({ o with didValidateAllOnce := true, validationErrors := [] }, [])).2,
    rfl, List.mem_cons_self _ _, ?_⟩
  intro x hx
  rcases List.mem_cons.mp hx with rfl | hx
  · rfl
  · exact vfold_events_nonnotify (o.validations.map Prod.fst) _
      (by intro y hy; cases hy) x hx

/- ### Frame lemmas for `validateProperty` -/

theorem msgsFor_addList_ne (a b : String) (hb : b ≠ a) :
    ∀ (msgs : List String) (e : Errors),
      msgsFor (msgs.foldl (fun e2 m => errorsAdd e2 a m) e) b = msgsFor e b := by
  intro msgs
  induction msgs with
  | nil => intro e; rfl
  | cons m rest ih =>
    intro e
    simpa [ih (errorsAdd e a m)] using msgsFor_errorsAdd_ne e a b m hb

theorem rrfold_msgsFor_ne (vals : String → String) (a b : String) (hb : b ≠ a) :
    ∀ (rules : List (String × Validator)) (acc : Errors × List VEvent),
      msgsFor (rules.foldl (rrStep vals a) acc).1 b = msgsFor acc.1 b := by
  intro rules
  induction rules with
  | nil => intro acc; rfl
  | cons rule rest ih =>
    intro acc
    rw [List.foldl_cons, ih (rrStep vals a acc rule)]
    exact msgsFor_addList_ne a b hb (rule.2 (vals a)) acc.1

/-- C9.  `validateProperty(a)` leaves every other attribute's message
sequence exactly as it was: only `a`'s entries are removed and only messages
for `a` are added. -/
theorem validateProperty_frame (o : VObject) (a b : String) (h : b ≠ a) :
    msgsFor ((validateProperty o a).obj.validationErrors) b =
      msgsFor o.validationErrors b := by
  have h1 : (validateProperty o a).obj.validationErrors =
      (runRules o.values a (lookupRules o.validations a)
        (errorsRemove o.validationErrors a)).1 := rfl
  rw [h1, runRules, rrfold_msgsFor_ne o.values a b h]
  exact msgsFor_errorsRemove_ne o.validationErrors a b h

/-- C9 witness. -/
theorem validateProperty_frame_witness :
    let o : VObject :=
      { values := fun _ => ""
      , validations := [("name", [("presence", fun v => if v = "" then ["required"] else [])])]
      , validationErrors := [("age", ["stale"])]
      , didValidateAllOnce := false
      , flags := fun _ => false
      , validateOnValueChange := false
      , validateOnFocusOut := false
      , observerFlags := []
      , observers := [] }
    ("age" : String) ≠ "name"
    ∧ msgsFor ((validateProperty o "name").obj.validationErrors) "age" =
        msgsFor o.validationErrors "age" := by
  intro o
  exact ⟨by decide, validateProperty_frame o "name" "age" (by decide)⟩

/-- C10.  For an attribute with no entry in `validations`,
`validateProperty(a)` raises no error: it removes `a`'s stale errors, runs no
validator (the trace holds no `errors.add` event), and returns true. -/
theorem validateProperty_missing_attribute (o : VObject) (a : String)
    (h : o.validations.find? (fun kv => kv.1 == a) = none) :
    (validateProperty o a).ok = true
    ∧ (validateProperty o a).obj.validationErrors =
        errorsRemove o.validationErrors a
    ∧ (validateProperty o a).trace =
        [VEvent.willChange "validationErrors", VEvent.errorsRemoved a,
         VEvent.didChange "validationErrors"] := by
  have hl : lookupRules o.validations a = [] := by simp [lookupRules, h]
  refine ⟨?_, ?_, ?_⟩
  · have hok : (validateProperty o a).ok =
        ((msgsFor (runRules o.values a (lookupRules o.validations a)
          (errorsRemove o.validationErrors a)).1 a).length == 0) := rfl
    rw [hok, hl]
    simp [runRules, msgsFor_errorsRemove_self]
  · have hobj : (validateProperty o a).obj.validationErrors =
        (runRules o.values a (lookupRules o.validations a)
          (errorsRemove o.validationErrors a)).1 := rfl
    rw [hobj, hl]
    rfl
  · have htr : (validateProperty o a).trace =
        VEvent.willChange "validationErrors" ::
          (VEvent.errorsRemoved a ::
            (runRules o.values a (lookupRules o.validations a)
              (errorsRemove o.validationErrors a)).2)
          ++ [VEvent.didChange "validationErrors"] := rfl
    rw [htr, hl]
    rfl

/-- C10 witness. -/
theorem validateProperty_missing_attribute_witness :
    let o : VObject :=
      { values := fun _ => ""
      , validations := [("name", [])]
      , validationErrors := [("phone", ["stale"]), ("age", ["old"])]
      , didValidateAllOnce := false
      , flags := fun _ => false
      , validateOnValueChange := false
      , validateOnFocusOut := false
      , observerFlags := []
      , observers := [] }
    o.validations.find? (fun kv => kv.1 == "phone") = none
    ∧ (validateProperty o "phone").ok = true
    ∧ (validateProperty o "phone").obj.validationErrors =
        errorsRemove o.validationErrors "phone" := by
  intro o
  have h : o.validations.find? (fun kv => kv.1 == "phone") = none := rfl
  exact ⟨h, (validateProperty_missing_attribute o "phone" h).1,
    (validateProperty_missing_attribute o "phone" h).2.1⟩

/- ### Recovering the attribute name from the focus-out observer key (C4) -/

theorem matchesAt_iff_take :
    ∀ (p s : List Char), matchesAt p s = true ↔ s.take p.length = p := by
  intro p
  induction p with
  | nil =>
    intro s
    exact ⟨fun _ => rfl, fun _ => rfl⟩
  | cons a ps ih =>
    intro s
    cases s with
    | nil =>
      constructor
      · intro h; simp [matchesAt] at h
      · intro h; simp at h
    | cons c cs =>
      constructor
      · intro h
        have h2 : (a == c && matchesAt ps cs) = true := h
        rw [Bool.and_eq_true] at h2
        obtain ⟨h3, h4⟩ := h2
        have h5 : a = c := beq_iff_eq.mp h3
        have h6 := (ih cs).mp h4
        show (c :: cs).take (ps.length + 1) = a :: ps
        rw [List.take_succ_cons, h6, h5]
      · intro h
        have h2 : (c :: cs).take (ps.length + 1) = a :: ps := h
        rw [List.take_succ_cons] at h2
        injection h2 with h3 h4
        show (a == c && matchesAt ps cs) = true
        rw [Bool.and_eq_true]
        exact ⟨beq_iff_eq.mpr h3.symm, (ih cs).mpr h4⟩

/-- `"shouldValidate"` has no non-trivial self-overlap: no proper suffix of it
is an initial segment of it. -/
theorem sv_no_overlap :
    ∀ k : Fin ("shouldValidate".data).length, 0 < k.val →
      matchesAt (("shouldValidate".data).drop k.val) ("shouldValidate".data) = false := by
  decide

theorem replaceFirst_strip (s : List Char)
    (h : hasOccurrence ("shouldValidate".data) s = false) :
    replaceFirstList ("shouldValidate".data) [] (s ++ "shouldValidate".data) = s := by
  induction s with
  | nil => decide
  | cons c t ih =>
    rw [hasOccurrence, Bool.or_eq_false_iff] at h
    obtain ⟨hm, hrest⟩ := h
    by_cases hp : matchesAt ("shouldValidate".data) (c :: (t ++ "shouldValidate".data)) = true
    · exfalso
      have htake := (matchesAt_iff_take _ _).mp hp
      rw [← List.cons_append, List.take_append_eq_append_take] at htake
      by_cases hlen : ("shouldValidate".data).length ≤ (c :: t).length
      · rw [Nat.sub_eq_zero_of_le hlen] at htake
        simp only [List.take_zero, List.append_nil] at htake
        have hct : matchesAt ("shouldValidate".data) (c :: t) = true :=
          (matchesAt_iff_take _ _).mpr htake
        rw [hct] at hm
        cases hm
      · push_neg at hlen
        have hct : (c :: t).take ("shouldValidate".data).length = c :: t :=
          List.take_of_length_le (Nat.le_of_lt hlen)
        rw [hct] at htake
        have hdrop := congrArg (List.drop (c :: t).length) htake
        rw [List.drop_left] at hdrop
        have hmatch : matchesAt (("shouldValidate".data).drop (c :: t).length)
            ("shouldValidate".data) = true := by
          refine (matchesAt_iff_take _ _).mpr ?_
          rw [List.length_drop]
          exact hdrop
        have hfalse := sv_no_overlap ⟨(c :: t).length, hlen⟩ (by simp)
        rw [hmatch] at hfalse
        cases hfalse
    · have hstep : replaceFirstList ("shouldValidate".data) []
          (c :: (t ++ "shouldValidate".data)) =
          if matchesAt ("shouldValidate".data) (c :: (t ++ "shouldValidate".data))
          then [] ++ (c :: (t ++ "shouldValidate".data)).drop ("shouldValidate".data).length
          else c :: replaceFirstList ("shouldValidate".data) [] (t ++ "shouldValidate".data) := rfl
      rw [List.cons_append, hstep, if_neg hp]
      exact congrArg (fun l => c :: l) (ih hrest)

/-- C4 counterexample.  Line 122 uses JS `replace('shouldValidate', '')`,
which removes the FIRST occurrence rather than the suffix: for the attribute
`"shouldValidatex"`, whose observer fires on key
`"shouldValidatexshouldValidate"`, the recovered name is
`"xshouldValidate"`, not the original attribute name. -/
theorem recoverProperty_cex :
    recoverProperty (focusOutObservedKey "shouldValidatex") = "xshouldValidate"
    ∧ recoverProperty (focusOutObservedKey "shouldValidatex") ≠ "shouldValidatex" := by
  constructor
  · decide
  · decide

/-- C4 (amended).  When the focus-out observer fires on the observed key
`a ++ "shouldValidate"`, the attribute it re-validates is obtained by
removing the FIRST occurrence of `"shouldValidate"` from the observed key;
the recovered name equals `a` for every attribute name that does not itself
contain `"shouldValidate"` as a substring. -/
theorem recoverProperty_strips_first_occurrence (a : String)
    (h : hasOccurrence ("shouldValidate".data) a.data = false) :
    recoverProperty (focusOutObservedKey a) = a := by
  have h1 : recoverProperty (focusOutObservedKey a) =
      String.mk (replaceFirstList ("shouldValidate".data) []
        ((a ++ "shouldValidate").data)) := rfl
  rw [h1, strDataAppend, replaceFirst_strip a.data h]

/-- C4 witness. -/
theorem recoverProperty_strips_first_occurrence_witness :
    hasOccurrence ("shouldValidate".data) ("name".data) = false
    ∧ recoverProperty (focusOutObservedKey "name") = "name" :=
  ⟨by decide, recoverProperty_strips_first_occurrence "name" (by decide)⟩

/- ### String cancellation and key disjointness -/

theorem strEqOfDataEq {p q : String} (h : p.data = q.data) : p = q := by
  cases p
  cases q
  exact congrArg String.mk h

theorem strAppendCancelRight {p q s : String} (h : p ++ s = q ++ s) : p = q := by
  apply strEqOfDataEq
  have h2 : p.data ++ s.data = q.data ++ s.data := by
    rw [← strDataAppend, ← strDataAppend, h]
  exact List.append_cancel_right h2

theorem strAppendCancelLeft {s p q : String} (h : s ++ p = s ++ q) : p = q := by
  apply strEqOfDataEq
  have h2 : s.data ++ p.data = s.data ++ q.data := by
    rw [← strDataAppend, ← strDataAppend, h]
  exact List.append_cancel_left h2

theorem focusOutObservedKeyInj {p q : String}
    (h : focusOutObservedKey p = focusOutObservedKey q) : p = q :=
  strAppendCancelRight h

theorem vcObserverKeyInj {p q : String}
    (h : vcObserverKey p = vcObserverKey q) : p = q :=
  strAppendCancelLeft (strAppendCancelRight h)

/-- The last character of a list, via `foldl` (so that appends factor). -/
def lastChar? (l : List Char) : Option Char :=
  l.foldl (fun _ c => some c) none

theorem lastChar?_append (x m : List Char) (h : m ≠ []) :
    lastChar? (x ++ m) = lastChar? m := by
  cases m with
  | nil => exact absurd rfl h
  | cons c rest =>
    unfold lastChar?
    rw [List.foldl_append]
    rfl

theorem vcKey_ne_foKey (p q : String) : vcObserverKey p ≠ foObserverKey q := by
  intro h
  have hd : (("_observer" ++ p).data ++ ("_value_change").data) =
      (("_observer" ++ q).data ++ ("_focus_out").data) := by
    rw [← strDataAppend, ← strDataAppend]
    exact congrArg String.data h
  have h2 := congrArg lastChar? hd
  rw [lastChar?_append (("_observer" ++ p).data) (("_value_change").data) (by decide),
    lastChar?_append (("_observer" ++ q).data) (("_focus_out").data) (by decide)] at h2
  exact absurd h2 (by decide)

theorem pair_fo_ne_vc (p q : String) :
    (focusOutObservedKey p, foHandler) ≠ (q, vcHandler) := by
  intro h
  injection h with h1 h2
  exact absurd h2 (by decide)

theorem pair_vc_ne_fo (p q : String) :
    (p, vcHandler) ≠ (focusOutObservedKey q, foHandler) := by
  intro h
  injection h with h1 h2
  exact absurd h2 (by decide)

/- ### At most one observer per attribute and kind (C6) -/

/-- Number of times a given (observed key, handler) registration occurs. -/
def countEntry (obs : List (String × String)) (e : String × String) : Nat :=
  obs.countP (fun x => decide (x = e))

theorem countEntry_append_single (l : List (String × String))
    (x e : String × String) :
    countEntry (l ++ [x]) e = countEntry l e + if x = e then 1 else 0 := by
  simp [countEntry, List.countP_append, List.countP_cons]

/-- The wiring invariant: each observer kind occurs at most once per
attribute, and an installed observer is recorded by its `this[observerKey]`
guard. -/
def WInv (st : WiringState) : Prop :=
  ∀ p : String,
    countEntry st.2 (p, vcHandler) ≤ 1
    ∧ (1 ≤ countEntry st.2 (p, vcHandler) → vcObserverKey p ∈ st.1)
    ∧ countEntry st.2 (focusOutObservedKey p, foHandler) ≤ 1
    ∧ (1 ≤ countEntry st.2 (focusOutObservedKey p, foHandler) →
        foObserverKey p ∈ st.1)

theorem wireValueStep_winv (vc : Bool) (p0 : String) (st : WiringState)
    (h : WInv st) : WInv (wireValueStep vc p0 st) := by
  cases vc with
  | false => simpa [wireValueStep] using h
  | true =>
    by_cases hmem : vcObserverKey p0 ∈ st.1
    · simpa [wireValueStep, hmem] using h
    · have hstate : wireValueStep true p0 st =
          (vcObserverKey p0 :: st.1, st.2 ++ [(p0, vcHandler)]) := by
        simp [wireValueStep, hmem]
      rw [hstate]
      intro p
      obtain ⟨c1, c2, c3, c4⟩ := h p
      refine ⟨?_, ?_, ?_, ?_⟩
      · rw [countEntry_append_single]
        by_cases hpp : (p0, vcHandler) = (p, vcHandler)
        · have hp0 : p0 = p := congrArg Prod.fst hpp
          have hc0 : countEntry st.2 (p, vcHandler) = 0 := by
            by_contra hne
            exact hmem (hp0 ▸ c2 (Nat.one_le_iff_ne_zero.mpr hne))
          rw [hc0, if_pos hpp]
        · rw [if_neg hpp]
          simpa using c1
      · rw [countEntry_append_single]
        intro hcount
        by_cases hpp : (p0, vcHandler) = (p, vcHandler)
        · have hp0 : p0 = p := congrArg Prod.fst hpp
          exact List.mem_cons.mpr (Or.inl (congrArg vcObserverKey hp0).symm)
        · rw [if_neg hpp] at hcount
          simp only [Nat.add_zero] at hcount
          exact List.mem_cons_of_mem _ (c2 hcount)
      · rw [countEntry_append_single, if_neg (pair_vc_ne_fo p0 p)]
        simpa using c3
      · rw [countEntry_append_single, if_neg (pair_vc_ne_fo p0 p)]
        intro hcount
        simp only [Nat.add_zero] at hcount
        exact List.mem_cons_of_mem _ (c4 hcount)

theorem wireFocusStep_winv (fo : Bool) (p0 : String) (st : WiringState)
    (h : WInv st) : WInv (wireFocusStep fo p0 st) := by
  cases fo with
  | false => simpa [wireFocusStep] using h
  | true =>
    by_cases hmem : foObserverKey p0 ∈ st.1
    · simpa [wireFocusStep, hmem] using h
    · have hstate : wireFocusStep true p0 st =
          (foObserverKey p0 :: st.1,
           st.2 ++ [(focusOutObservedKey p0, foHandler)]) := by
        simp [wireFocusStep, hmem]
      rw [hstate]
      intro p
      obtain ⟨c1, c2, c3, c4⟩ := h p
      refine ⟨?_, ?_, ?_, ?_⟩
      · rw [countEntry_append_single, if_neg (pair_fo_ne_vc p0 p)]
        simpa using c1
      · rw [countEntry_append_single, if_neg (pair_fo_ne_vc p0 p)]
        intro hcount
        simp only [Nat.add_zero] at hcount
        exact List.mem_cons_of_mem _ (c2 hcount)
      · rw [countEntry_append_single]
        by_cases hpp : (focusOutObservedKey p0, foHandler) =
            (focusOutObservedKey p, foHandler)
        · have hp0 : p0 = p := focusOutObservedKeyInj (congrArg Prod.fst hpp)
          have hc0 : countEntry st.2 (focusOutObservedKey p, foHandler) = 0 := by
            by_contra hne
            exact hmem (hp0 ▸ c4 (Nat.one_le_iff_ne_zero.mpr hne))
          rw [hc0, if_pos hpp]
        · rw [if_neg hpp]
          simpa using c3
      · rw [countEntry_append_single]
        intro hcount
        by_cases hpp : (focusOutObservedKey p0, foHandler) =
            (focusOutObservedKey p, foHandler)
        · have hp0 : p0 = p := focusOutObservedKeyInj (congrArg Prod.fst hpp)
          exact List.mem_cons.mpr (Or.inl (congrArg foObserverKey hp0).symm)
        · rw [if_neg hpp] at hcount
          simp only [Nat.add_zero] at hcount
          exact List.mem_cons_of_mem _ (c4 hcount)

theorem wireOne_winv (vc fo : Bool) (p0 : String) (st : WiringState)
    (h : WInv st) : WInv (wireOne vc fo st p0) :=
  wireFocusStep_winv fo p0 _ (wireValueStep_winv vc p0 st h)

theorem wfold_winv (vc fo : Bool) :
    ∀ (l : List String) (st : WiringState), WInv st →
      WInv (l.foldl (wireOne vc fo) st) := by
  intro l
  induction l with
  | nil => intro st h; exact h
  | cons q rest ih =>
    intro st h
    exact ih (wireOne vc fo st q) (wireOne_winv vc fo q st h)

theorem setup_winv (o : VObject) (h : WInv (o.observerFlags, o.observers)) :
    WInv ((_setupAutoValidateObserves o).observerFlags,
      (_setupAutoValidateObserves o).observers) :=
  wfold_winv o.validateOnValueChange o.validateOnFocusOut
    (o.validations.map Prod.fst) (o.observerFlags, o.observers) h

theorem applySeq_winv :
    ∀ (vs : List ValidationsSpec) (o : VObject),
      WInv (o.observerFlags, o.observers) →
      WInv ((applySeq o vs).observerFlags, (applySeq o vs).observers) := by
  intro vs
  induction vs with
  | nil => intro o h; exact h
  | cons v rest ih =>
    intro o h
    exact ih (reassignAndWire o v)
      (setup_winv { o with validations := v } h)

/-- C6.  Re-running the wiring step any number of times — after any sequence
of `validations` reassignments — installs at most one value-change observer
and at most one focus-out observer per attribute. -/
theorem wiring_installs_at_most_one_observer (o : VObject)
    (h1 : o.observerFlags = []) (h2 : o.observers = [])
    (vs : List ValidationsSpec) (p : String) :
    countEntry (applySeq o vs).observers (p, vcHandler) ≤ 1
    ∧ countEntry (applySeq o vs).observers
        (focusOutObservedKey p, foHandler) ≤ 1 := by
  have hbase : WInv (o.observerFlags, o.observers) := by
    rw [h1, h2]
    intro q
    refine ⟨?_, ?_, ?_, ?_⟩ <;> simp [countEntry]
  have h := applySeq_winv vs o hbase p
  exact ⟨h.1, h.2.2.1⟩

/-- C6 witness: wiring the same two-attribute specification three times. -/
theorem wiring_installs_at_most_one_observer_witness :
    let v : ValidationsSpec := [("name", []), ("age", [])]
    let o : VObject :=
      { values := fun _ => ""
      , validations := v
      , validationErrors := []
      , didValidateAllOnce := false
      , flags := fun _ => false
      , validateOnValueChange := true
      , validateOnFocusOut := true
      , observerFlags := []
      , observers := [] }
    o.observerFlags = [] ∧ o.observers = []
    ∧ countEntry (applySeq o [v, v, v]).observers ("name", vcHandler) ≤ 1
    ∧ countEntry (applySeq o [v, v, v]).observers
        (focusOutObservedKey "name", foHandler) ≤ 1 := by
  intro v o
  exact ⟨rfl, rfl,
    (wiring_installs_at_most_one_observer o rfl rfl [v, v, v] "name").1,
    (wiring_installs_at_most_one_observer o rfl rfl [v, v, v] "name").2⟩

/- ### The value-change observer is registered and gates correctly (C5) -/

theorem wireValueStep_obs_mono (vc : Bool) (p0 : String) (st : WiringState)
    {e : String × String} (h : e ∈ st.2) : e ∈ (wireValueStep vc p0 st).2 := by
  cases vc with
  | false => exact h
  | true =>
    by_cases hmem : vcObserverKey p0 ∈ st.1
    · simpa [wireValueStep, hmem] using h
    · simp only [wireValueStep, if_pos rfl, if_neg hmem]
      exact List.mem_append_left _ h

theorem wireFocusStep_obs_mono (fo : Bool) (p0 : String) (st : WiringState)
    {e : String × String} (h : e ∈ st.2) : e ∈ (wireFocusStep fo p0 st).2 := by
  cases fo with
  | false => exact h
  | true =>
    by_cases hmem : foObserverKey p0 ∈ st.1
    · simpa [wireFocusStep, hmem] using h
    · simp only [wireFocusStep, if_pos rfl, if_neg hmem]
      exact List.mem_append_left _ h

theorem wireOne_obs_mono (vc fo : Bool) (p0 : String) (st : WiringState)
    {e : String × String} (h : e ∈ st.2) : e ∈ (wireOne vc fo st p0).2 :=
  wireFocusStep_obs_mono fo p0 _ (wireValueStep_obs_mono vc p0 st h)

theorem wfold_obs_mono (vc fo : Bool) :
    ∀ (l : List String) (st : WiringState) {e : String × String},
      e ∈ st.2 → e ∈ (l.foldl (wireOne vc fo) st).2 := by
  intro l
  induction l with
  | nil => intro st e h; exact h
  | cons q rest ih =>
    intro st e h
    exact ih (wireOne vc fo st q) (wireOne_obs_mono vc fo q st h)

/-- Every stored `this[observerKey]` handle is either a value-change guard
whose observer is registered, or a focus-out guard. -/
def Corr (st : WiringState) : Prop :=
  ∀ k ∈ st.1,
    (∃ p, k = vcObserverKey p ∧ (p, vcHandler) ∈ st.2)
    ∨ ∃ p, k = foObserverKey p

theorem wireValueStep_corr (vc : Bool) (p0 : String) (st : WiringState)
    (h : Corr st) : Corr (wireValueStep vc p0 st) := by
  cases vc with
  | false => exact h
  | true =>
    by_cases hmem : vcObserverKey p0 ∈ st.1
    · simpa [wireValueStep, hmem] using h
    · simp only [wireValueStep, if_pos rfl, if_neg hmem]
      intro k hk
      rcases List.mem_cons.mp hk with rfl | hk
      · exact Or.inl ⟨p0, rfl, List.mem_append_right _ (List.mem_singleton.mpr rfl)⟩
      · rcases h k hk with ⟨p, hp, hobs⟩ | hfo
        · exact Or.inl ⟨p, hp, List.mem_append_left _ hobs⟩
        · exact Or.inr hfo

theorem wireFocusStep_corr (fo : Bool) (p0 : String) (st : WiringState)
    (h : Corr st) : Corr (wireFocusStep fo p0 st) := by
  cases fo with
  | false => exact h
  | true =>
    by_cases hmem : foObserverKey p0 ∈ st.1
    · simpa [wireFocusStep, hmem] using h
    · simp only [wireFocusStep, if_pos rfl, if_neg hmem]
      intro k hk
      rcases List.mem_cons.mp hk with rfl | hk
      · exact Or.inr ⟨p0, rfl⟩
      · rcases h k hk with ⟨p, hp, hobs⟩ | hfo
        · exact Or.inl ⟨p, hp, List.mem_append_left _ hobs⟩
        · exact Or.inr hfo

theorem wireOne_corr (vc fo : Bool) (p0 : String) (st : WiringState)
    (h : Corr st) : Corr (wireOne vc fo st p0) :=
  wireFocusStep_corr fo p0 _ (wireValueStep_corr vc p0 st h)

theorem wfold_registers_vc (fo : Bool) :
    ∀ (l : List String) (st : WiringState), Corr st →
      ∀ p ∈ l, (p, vcHandler) ∈ (l.foldl (wireOne true fo) st).2 := by
  intro l
  induction l with
  | nil => intro st hc p hp; cases hp
  | cons q rest ih =>
    intro st hc p hp
    rcases List.mem_cons.mp hp with rfl | hp
    · refine wfold_obs_mono true fo rest (wireOne true fo st p) ?_
      have hval : (p, vcHandler) ∈ (wireValueStep true p st).2 := by
        by_cases hmem : vcObserverKey p ∈ st.1
        · rcases hc _ hmem with ⟨r, hr, hobs⟩ | ⟨r, hr⟩
          · have : p = r := vcObserverKeyInj hr
            subst this
            simpa [wireValueStep, hmem] using hobs
          · exact absurd hr (vcKey_ne_foKey p r)
        · simp only [wireValueStep, if_pos rfl, if_neg hmem]
          exact List.mem_append_right _ (List.mem_singleton.mpr rfl)
      exact wireFocusStep_obs_mono fo p _ hval
    · exact ih (wireOne true fo st q) (wireOne_corr true fo q st hc) p hp

/-- C5.  With `validateOnValueChange` enabled, the wiring step registers the
value-change observer on every attribute declared in `validations`; when that
observer fires on a value change of the attribute, it re-validates exactly
that one attribute via `validateProperty` iff the attribute's
`shouldValidate` flag is true or a full `validate()` has already run, and
performs no validation otherwise. -/
theorem valueChange_observer_gate (o : VObject) (a : String)
    (hen : o.validateOnValueChange = true)
    (hdecl : a ∈ o.validations.map Prod.fst)
    (hfresh : o.observerFlags = []) :
    ((a, vcHandler) ∈ (_setupAutoValidateObserves o).observers)
    ∧ (∀ s : VObject,
        (_onValueChangeValidateAttribute s a).2.1 = some a ↔
          (s.flags (a ++ "shouldValidate") = true ∨ s.didValidateAllOnce = true))
    ∧ (∀ s : VObject,
        s.flags (a ++ "shouldValidate") = false → s.didValidateAllOnce = false →
          _onValueChangeValidateAttribute s a = (s, none, []))
    ∧ (∀ s : VObject,
        s.flags (a ++ "shouldValidate") = true ∨ s.didValidateAllOnce = true →
          (_onValueChangeValidateAttribute s a).1 = (validateProperty s a).obj
          ∧ (_onValueChangeValidateAttribute s a).2.2 = (validateProperty s a).trace) := by
  refine ⟨?_, ?_, ?_, ?_⟩
  · show (a, vcHandler) ∈
      ((o.validations.map Prod.fst).foldl
        (wireOne o.validateOnValueChange o.validateOnFocusOut)
        (o.observerFlags, o.observers)).2
    rw [hen, hfresh]
    refine wfold_registers_vc o.validateOnFocusOut (o.validations.map Prod.fst)
      ([], o.observers) ?_ a hdecl
    intro k hk
    cases hk
  · intro s
    by_cases hgate : (s.flags (a ++ "shouldValidate") || s.didValidateAllOnce) = true
    · simp only [_onValueChangeValidateAttribute, if_pos hgate]
      simp only [Bool.or_eq_true] at hgate
      simpa using hgate
    · simp only [_onValueChangeValidateAttribute, if_neg hgate]
      simp only [Bool.or_eq_true] at hgate
      push_neg at hgate
      simp [hgate.1, hgate.2]
  · intro s hf hd
    have hgate : (s.flags (a ++ "shouldValidate") || s.didValidateAllOnce) = false := by
      rw [hf, hd]
      rfl
    simp [_onValueChangeValidateAttribute, hgate]
  · intro s hor
    have hgate : (s.flags (a ++ "shouldValidate") || s.didValidateAllOnce) = true := by
      rcases hor with h | h <;> simp [h]
    simp [_onValueChangeValidateAttribute, hgate]

/-- C5 witness. -/
theorem valueChange_observer_gate_witness :
    let o : VObject :=
      { values := fun _ => ""
      , validations := [("name", [])]
      , validationErrors := []
      , didValidateAllOnce := false
      , flags := fun _ => false
      , validateOnValueChange := true
      , validateOnFocusOut := false
      , observerFlags := []
      , observers := [] }
    o.validateOnValueChange = true
    ∧ "name" ∈ o.validations.map Prod.fst
    ∧ o.observerFlags = []
    ∧ ("name", vcHandler) ∈ (_setupAutoValidateObserves o).observers
    ∧ _onValueChangeValidateAttribute o "name" = (o, none, []) := by
  intro o
  have hdecl : "name" ∈ o.validations.map Prod.fst := by simp
  refine ⟨rfl, hdecl, rfl,
    (valueChange_observer_gate o "name" rfl hdecl rfl).1,
    (valueChange_observer_gate o "name" rfl hdecl rfl).2.2.1 o rfl rfl⟩

/- ### Touch tracking sets the object-level shouldValidate flag (C3) -/

/-- C3.  Once a bound widget's `_didFocusIn` and `_didFocusOut` flags are both
true, the focus observer resolves the widget's data-binding source path — its
`valueBinding`, or, when that is absent, its `checkedBinding` (line 20:
`this.valueBinding || this.checkedBinding`, the latter for `Ember.Checkbox`)
— and sets `<resolvedAttribute>shouldValidate` to true on the underlying
object: exactly the key (`focusOutObservedKey`) the engine's focus-out
observer watches for that attribute. -/
theorem widget_focus_sets_shouldValidate (wg : Widget) (world : UIWorld)
    (b : WidgetBinding) (oid : Nat)
    (hin : wg.didFocusIn = true) (hout : wg.didFocusOut = true)
    (hb : wg.valueBinding = some b
      ∨ (wg.valueBinding = none ∧ wg.checkedBinding = some b))
    (hres : world.resolve b.base = some oid) :
    ((_setupShouldValidate wg world).2.objFlags oid (b.attr ++ "shouldValidate") = true)
    ∧ b.attr ++ "shouldValidate" = focusOutObservedKey b.attr := by
  refine ⟨?_, rfl⟩
  unfold _setupShouldValidate
  rcases hb with hb | ⟨hv, hc⟩
  · rw [hin, hout, hb]
    simp [hres, setObjFlag]
  · rw [hin, hout, hv, hc]
    simp [hres, setObjFlag]

/-- C3 witness: a text-field-style widget bound via `valueBinding` and a
checkbox-style widget bound only via `checkedBinding`. -/
theorem widget_focus_sets_shouldValidate_witness :
    let b : WidgetBinding := { base := ["controller", "content"], attr := "name" }
    let wg : Widget :=
      { didFocusIn := true
      , didFocusOut := true
      , valueBinding := some b
      , checkedBinding := none
      , ownFlags := fun _ => false }
    let cb : WidgetBinding := { base := ["controller", "content"], attr := "accepted" }
    let wc : Widget :=
      { didFocusIn := true
      , didFocusOut := true
      , valueBinding := none
      , checkedBinding := some cb
      , ownFlags := fun _ => false }
    let world : UIWorld :=
      { resolve := fun segs => if segs = ["controller", "content"] then some 0 else none
      , objFlags := fun _ _ => false }
    wg.didFocusIn = true ∧ wg.didFocusOut = true
    ∧ wg.valueBinding = some b ∧ world.resolve b.base = some 0
    ∧ (_setupShouldValidate wg world).2.objFlags 0 ("name" ++ "shouldValidate") = true
    ∧ wc.didFocusIn = true ∧ wc.didFocusOut = true
    ∧ wc.valueBinding = none ∧ wc.checkedBinding = some cb
    ∧ world.resolve cb.base = some 0
    ∧ (_setupShouldValidate wc world).2.objFlags 0 ("accepted" ++ "shouldValidate") = true := by
  intro b wg cb wc world
  have hres : world.resolve b.base = some 0 := by simp [b, world]
  have hres2 : world.resolve cb.base = some 0 := by simp [cb, world]
  exact ⟨rfl, rfl, rfl, hres,
    (widget_focus_sets_shouldValidate wg world b 0 rfl rfl (Or.inl rfl) hres).1,
    rfl, rfl, rfl, rfl, hres2,
    (widget_focus_sets_shouldValidate wc world cb 0 rfl rfl (Or.inr ⟨rfl, rfl⟩) hres2).1⟩

/- ### Concrete instantiations of the hypothesis-free theorems -/

/-- A concrete validated object used to instantiate theorems. -/
def demoObj : VObject :=
  { values := fun a => if a = "name" then "" else "x"
  , validations :=
      [("name", [("presence", fun v => if v = "" then ["required"] else [])])]
  , validationErrors := [("age", ["stale"])]
  , didValidateAllOnce := false
  , flags := fun _ => false
  , validateOnValueChange := false
  , validateOnFocusOut := false
  , observerFlags := []
  , observers := [] }

/-- C2 witness. -/
theorem validateProperty_true_iff_error_free_witness :
    (validateProperty demoObj "name").ok = true ↔
      msgsFor (validateProperty demoObj "name").obj.validationErrors "name" = [] :=
  validateProperty_true_iff_error_free demoObj "name"

/-- C7 witness. -/
theorem validate_idempotent_witness :
    (validate (validate demoObj).obj).obj.validationErrors =
      (validate demoObj).obj.validationErrors
    ∧ (validate (validate demoObj).obj).ok = (validate demoObj).ok :=
  validate_idempotent demoObj

/-- C8 witness. -/
theorem validate_single_notification_bracket_witness :
    ∃ inner, (validate demoObj).trace =
        VEvent.willChange "validationErrors" ::
          (inner ++ [VEvent.didChange "validationErrors"])
      ∧ VEvent.errorsCleared ∈ inner
      ∧ ∀ x ∈ inner, isNotifyEvent x = false :=
  validate_single_notification_bracket demoObj

end EmberValidations
